import Mathlib

/-!
Verification development for the inotipy repository (src/inotify.py).

The definitions below are a shallow embedding of the Python source:

* the binary record decoder embedded from the decode loop of
  `Watcher._callback` (src/inotify.py lines 397-433);
* the dispatch / waiter-scheduling state machine embedded from
  `Watcher._callback`, `Watcher.get` and `Watcher._add_remove_watch`;
* the watch-handle lifecycle operations embedded from `Watch.valid`
  and `Watch.remove`;
* the identity cache embedded from `Watch.__new__` and `Watcher.watch`.

Byte buffers are `List Nat` (one entry per byte), machine integers are
`Nat`/`Int` with explicit reductions modulo 2^32 where the source relies
on 32-bit representation, and Python exceptions are modelled as `Except`
errors.
-/

namespace Inotipy

/-- Mask bit IN.Q_OVERFLOW from src/inotify.py line 63. -/
def IN_Q_OVERFLOW : Nat := 0x00004000

/-- Mask bit IN.IGNORED from src/inotify.py line 64. -/
def IN_IGNORED : Nat := 0x00008000

/-! ## Record decoder (`Watcher._callback`, the `struct.unpack` loop) -/

/-- Value of a little-endian byte list (native order on the x86 hosts the
source targets). -/
def leNum : List Nat → Nat
  | [] => 0
  | b :: rest => b + 256 * leNum rest

/-- Unsigned 32-bit decode of the first four bytes of a buffer, as
`struct.unpack("@I", ...)` does. -/
def decodeU32 (bs : List Nat) : Nat := leNum (bs.take 4)

/-- Reinterpret an unsigned 32-bit value as the signed 32-bit value with the
same bit pattern, as `struct.unpack("@i", ...)` does. -/
def toI32 (n : Nat) : Int := if n < 2 ^ 31 then (n : Int) else (n : Int) - 2 ^ 32

/-- One decoded raw record: the `(wd, mask, cookie, pathname)` data the
decode loop of `Watcher._callback` extracts for each kernel record, with
the name already truncated at the first NUL byte. -/
structure RawRec where
  wd : Int
  mask : Nat
  cookie : Nat
  name : List Nat
deriving DecidableEq, Repr

/-- Decode-time failures of `Watcher._callback`: the two `assert`
statements guarding buffer framing (src/inotify.py lines 402 and 404). -/
inductive DecodeErr
  | truncatedHeader
  | truncatedName
deriving DecidableEq, Repr

/-- The name truncation of src/inotify.py lines 407-410: keep the bytes
strictly before the first NUL, or everything if there is no NUL. -/
def truncAtNul (bs : List Nat) : List Nat := bs.takeWhile (· ≠ 0)

/-- The decode loop of `Watcher._callback` (src/inotify.py lines 401-432),
restricted to its pure part: splitting a byte buffer into raw records.
Each iteration demands a 16-byte header `{wd : i32, mask : u32,
cookie : u32, namelen : u32}` (native order) followed by `namelen` name
bytes; a shorter buffer trips the corresponding `assert`. -/
def decodeEvents (buf : List Nat) : Except DecodeErr (List RawRec) :=
  if _h0 : buf.length = 0 then .ok []
  else if buf.length < 16 then .error .truncatedHeader
  else
    let namelen := decodeU32 (buf.drop 12)
    if buf.length < 16 + namelen then .error .truncatedName
    else
      match decodeEvents (buf.drop (16 + namelen)) with
      | .error e => .error e
      | .ok rest =>
          .ok ({ wd := toI32 (decodeU32 buf), mask := decodeU32 (buf.drop 4),
                 cookie := decodeU32 (buf.drop 8),
                 name := truncAtNul ((buf.drop 16).take namelen) } :: rest)
termination_by buf.length
decreasing_by simp only [List.length_drop]; omega

/-! ## Encoder for well-formed kernel byte streams (used to state C3) -/

/-- Little-endian unsigned 32-bit encoding of a value below 2^32. -/
def encU32 (n : Nat) : List Nat :=
  [n % 256, n / 256 % 256, n / 65536 % 256, n / 16777216 % 256]

/-- Little-endian two's-complement encoding of a signed 32-bit value. -/
def encI32 (i : Int) : List Nat := encU32 ((i % 2 ^ 32).toNat)

/-- One kernel record as it appears on the wire: header fields plus the
raw (NUL-padded) name field. -/
structure RawEvent where
  wd : Int
  mask : Nat
  cookie : Nat
  nameField : List Nat
deriving DecidableEq, Repr

/-- The byte encoding of one kernel record: 16-byte native-order header
followed by the name field, as laid out by `struct inotify_event`. -/
def encodeRec (r : RawEvent) : List Nat :=
  encI32 r.wd ++ encU32 r.mask ++ encU32 r.cookie ++
    encU32 r.nameField.length ++ r.nameField

/-- Back-to-back concatenation of record encodings with no separators. -/
def encodeStream (rs : List RawEvent) : List Nat := (rs.map encodeRec).flatten

/-- Field ranges of a well-formed kernel record: the header fields fit in
32 bits (`wd` signed, the rest unsigned). -/
def wfRec (r : RawEvent) : Prop :=
  -(2 ^ 31) ≤ r.wd ∧ r.wd < 2 ^ 31 ∧ r.mask < 2 ^ 32 ∧ r.cookie < 2 ^ 32 ∧
    r.nameField.length < 2 ^ 32

instance wfRecDecidable (r : RawEvent) : Decidable (wfRec r) := by
  unfold wfRec; infer_instance

/-- The raw tuple a well-formed record should decode to: its header fields
with the name truncated at the first NUL. -/
def toRaw (r : RawEvent) : RawRec :=
  { wd := r.wd, mask := r.mask, cookie := r.cookie, name := truncAtNul r.nameField }

/-! ### Decoder lemmas -/

theorem take_encU32_append (n : Nat) (t : List Nat) :
    (encU32 n ++ t).take 4 = encU32 n :=
  List.take_left' rfl

theorem drop_encU32_append (n : Nat) (t : List Nat) :
    (encU32 n ++ t).drop 4 = t :=
  List.drop_left' rfl

theorem decodeU32_encU32_append (n : Nat) (t : List Nat) (h : n < 2 ^ 32) :
    decodeU32 (encU32 n ++ t) = n := by
  rw [decodeU32, take_encU32_append]
  simp only [encU32, leNum]
  omega

theorem toI32_encI32 (i : Int) (h1 : -(2 ^ 31) ≤ i) (h2 : i < 2 ^ 31) :
    toI32 ((i % 2 ^ 32).toNat) = i := by
  rw [toI32]
  split <;> omega

theorem emod_toNat_lt (i : Int) : (i % 2 ^ 32).toNat < 2 ^ 32 := by
  omega

/-- One unfolding step of the decoder when the buffer holds a full header
and a full name field. -/
theorem decodeEvents_step (buf : List Nat) (h16 : 16 ≤ buf.length)
    (hname : 16 + decodeU32 (buf.drop 12) ≤ buf.length) :
    decodeEvents buf =
      match decodeEvents (buf.drop (16 + decodeU32 (buf.drop 12))) with
      | .error e => .error e
      | .ok rest =>
          .ok ({ wd := toI32 (decodeU32 buf), mask := decodeU32 (buf.drop 4),
                 cookie := decodeU32 (buf.drop 8),
                 name := truncAtNul ((buf.drop 16).take (decodeU32 (buf.drop 12))) } :: rest) := by
  rw [decodeEvents]
  rw [dif_neg (by omega)]
  rw [if_neg (by omega)]
  rw [if_neg (by omega)]

/-- Decoding one well-formed record followed by any tail peels the record
off and continues on the tail. -/
theorem decodeEvents_cons (r : RawEvent) (t : List Nat) (h : wfRec r) :
    decodeEvents (encodeRec r ++ t) =
      match decodeEvents t with
      | .error e => .error e
      | .ok rest => .ok (toRaw r :: rest) := by
  obtain ⟨h1, h2, h3, h4, h5⟩ := h
  have hbuf : encodeRec r ++ t =
      encU32 ((r.wd % 2 ^ 32).toNat) ++ (encU32 r.mask ++ (encU32 r.cookie ++
        (encU32 r.nameField.length ++ (r.nameField ++ t)))) := by
    simp [encodeRec, encI32, List.append_assoc]
  have hd4 : (encodeRec r ++ t).drop 4 =
      encU32 r.mask ++ (encU32 r.cookie ++
        (encU32 r.nameField.length ++ (r.nameField ++ t))) := by
    rw [hbuf, drop_encU32_append]
  have hd8 : (encodeRec r ++ t).drop 8 =
      encU32 r.cookie ++ (encU32 r.nameField.length ++ (r.nameField ++ t)) := by
    have : (encodeRec r ++ t).drop 8 = ((encodeRec r ++ t).drop 4).drop 4 := by
      rw [List.drop_drop]
    rw [this, hd4, drop_encU32_append]
  have hd12 : (encodeRec r ++ t).drop 12 =
      encU32 r.nameField.length ++ (r.nameField ++ t) := by
    have : (encodeRec r ++ t).drop 12 = ((encodeRec r ++ t).drop 8).drop 4 := by
      rw [List.drop_drop]
    rw [this, hd8, drop_encU32_append]
  have hd16 : (encodeRec r ++ t).drop 16 = r.nameField ++ t := by
    have : (encodeRec r ++ t).drop 16 = ((encodeRec r ++ t).drop 12).drop 4 := by
      rw [List.drop_drop]
    rw [this, hd12, drop_encU32_append]
  have hdec0 : decodeU32 (encodeRec r ++ t) = (r.wd % 2 ^ 32).toNat := by
    rw [hbuf]; exact decodeU32_encU32_append _ _ (emod_toNat_lt r.wd)
  have hdec4 : decodeU32 ((encodeRec r ++ t).drop 4) = r.mask := by
    rw [hd4]; exact decodeU32_encU32_append _ _ h3
  have hdec8 : decodeU32 ((encodeRec r ++ t).drop 8) = r.cookie := by
    rw [hd8]; exact decodeU32_encU32_append _ _ h4
  have hdec12 : decodeU32 ((encodeRec r ++ t).drop 12) = r.nameField.length := by
    rw [hd12]; exact decodeU32_encU32_append _ _ h5
  have hlen : (encodeRec r ++ t).length = 16 + r.nameField.length + t.length := by
    simp [encodeRec, encI32, encU32]
    omega
  have hstep := decodeEvents_step (encodeRec r ++ t) (by omega) (by rw [hdec12]; omega)
  rw [hstep, hdec12, hd16]
  have hdropall : (r.nameField ++ t).drop r.nameField.length = t :=
    List.drop_left _ _
  have htake : (r.nameField ++ t).take r.nameField.length = r.nameField :=
    List.take_left _ _
  have hdrop16n : (encodeRec r ++ t).drop (16 + r.nameField.length) = t := by
    have : (encodeRec r ++ t).drop (16 + r.nameField.length) =
        ((encodeRec r ++ t).drop 16).drop r.nameField.length := by
      rw [List.drop_drop]
    rw [this, hd16, hdropall]
  rw [hdrop16n, htake, hdec0, hdec4, hdec8]
  rw [toI32_encI32 r.wd h1 h2]
  rfl

/-- Claim C3 main theorem: decoding a stream of N well-formed back-to-back
records yields exactly the N corresponding tuples in input order, each
name truncated at its first NUL byte. -/
theorem decode_stream_ok (rs : List RawEvent) (h : ∀ r ∈ rs, wfRec r) :
    decodeEvents (encodeStream rs) = .ok (rs.map toRaw) ∧
      (rs.map toRaw).length = rs.length := by
  refine ⟨?_, by simp⟩
  induction rs with
  | nil => rw [encodeStream]; simp [decodeEvents]
  | cons r rest ih =>
      have hr : wfRec r := h r (by simp)
      have hrest : ∀ x ∈ rest, wfRec x := fun x hx => h x (by simp [hx])
      have : encodeStream (r :: rest) = encodeRec r ++ encodeStream rest := by
        simp [encodeStream]
      rw [this, decodeEvents_cons r _ hr, ih hrest]
      rfl

/-- Witness for C3 at a concrete two-record stream (the second record
carries NUL padding that must be truncated). -/
theorem decode_stream_ok_witness :
    decodeEvents (encodeStream
        [{ wd := 1, mask := 2, cookie := 0, nameField := [] },
         { wd := 3, mask := 256, cookie := 7, nameField := [97, 98, 0, 0] }]) =
      .ok ([{ wd := 1, mask := 2, cookie := 0, nameField := [] },
            { wd := 3, mask := 256, cookie := 7, nameField := [97, 98, 0, 0] }].map toRaw) ∧
      ([{ wd := (1 : Int), mask := 2, cookie := 0, nameField := ([] : List Nat) },
        { wd := 3, mask := 256, cookie := 7, nameField := [97, 98, 0, 0] }].map toRaw).length = 2 :=
  decode_stream_ok _ (by decide)

/-- Claim C2 theorem: on a nonempty buffer shorter than the 16-byte header,
or shorter than the header plus its declared name length, the decode loop
fails with the corresponding framing assertion instead of truncating. -/
theorem decode_truncation_fails (buf : List Nat) (h0 : buf ≠ []) :
    (buf.length < 16 → decodeEvents buf = .error .truncatedHeader) ∧
      (16 ≤ buf.length → buf.length < 16 + decodeU32 (buf.drop 12) →
        decodeEvents buf = .error .truncatedName) := by
  have hne : ¬ buf.length = 0 := by simpa using h0
  constructor
  · intro hlt
    rw [decodeEvents, dif_neg hne, if_pos hlt]
  · intro h16 hshort
    rw [decodeEvents, dif_neg hne, if_neg (by omega), if_pos hshort]

/-- Witness for C2: a 3-byte buffer trips the header assertion, and a
16-byte buffer declaring a 7-byte name trips the name assertion. -/
theorem decode_truncation_fails_witness :
    decodeEvents [1, 2, 3] = .error .truncatedHeader ∧
      decodeEvents [0, 0, 0, 0, 0, 0, 0, 0, 0, 0, 0, 0, 7, 0, 0, 0] =
        .error .truncatedName :=
  ⟨(decode_truncation_fails [1, 2, 3] (by decide)).1 (by decide),
   (decode_truncation_fails _ (by decide)).2 (by decide) (by decide)⟩

/-! ## Watch handles and events (`Watch`, `Event`) -/

/-- Mutable fields of a `Watch` object relevant to its lifecycle.
`wd` is `Watch.wd` (`none` models Python `None` after `remove()`).
`parentRef` is `Watch._parent`: `none` models the field being Python
`None` (as set by `_callback` on an IGNORED record); `some alive` models
a weakref object whose referent is alive (`alive = true`) or already
garbage-collected (`alive = false`) — in Python the weakref object itself
never compares equal to `None` even when its referent is gone. -/
structure WatchObj where
  wd : Option Int
  parentRef : Option Bool
  pathname : List Nat
  mask : Nat
deriving DecidableEq, Repr

/-- The `Event` value built in `Watcher._callback` (src/inotify.py
line 424): optional watch handle, mask, cookie and decoded name. -/
structure Event where
  watch : Option WatchObj
  mask : Nat
  cookie : Nat
  pathname : List Nat
deriving DecidableEq, Repr

/-- Runtime failures of the dispatch step of `Watcher._callback`:
`unknownWatchId` is the `KeyError` from `self._watches[wd]` (line 413),
`overflowAssert` is the `assert mask & IN.Q_OVERFLOW != 0` (line 415),
`noneParent` is the `AttributeError` from `watch._parent = None` executed
when `watch` is Python `None` (line 420). -/
inductive DispErr
  | unknownWatchId
  | overflowAssert
  | noneParent
deriving DecidableEq, Repr

/-- Association-list lookup, modelling Python dict indexing (keys are
unique in all reachable states). -/
def alook {α β : Type} [DecidableEq α] : List (α × β) → α → Option β
  | [], _ => none
  | e :: rest, a => if e.1 = a then some e.2 else alook rest a

/-- Association-list key removal, modelling Python dict `pop`. -/
def aerase {α β : Type} [DecidableEq α] (l : List (α × β)) (a : α) : List (α × β) :=
  l.filter (fun e => decide (e.1 ≠ a))

theorem alook_aerase_self {α β : Type} [DecidableEq α] (l : List (α × β)) (a : α) :
    alook (aerase l a) a = none := by
  induction l with
  | nil => rfl
  | cons e rest ih =>
      by_cases he : e.1 = a
      · simpa [aerase, he] using ih
      · simpa [aerase, alook, he] using ih

/-- State of one `Watcher` as far as dispatch and `get()` scheduling are
concerned.  `watches`, `notifs`, `awaiting` and `_reader_count` are the
fields of the Python object; `resolved` holds futures that have had
`set_result(b)` called but whose task has not yet resumed; `registered`,
`regLog`, `timers`, `waiterTimeout` and `delivered` are observation
state: reader-callback registration status, the log of
`add_reader`/`remove_reader` calls (`true` = add), the armed timeout
timers, each parked waiter's timeout argument, and the log of events
returned by `get()` calls. -/
structure WatcherState where
  watches : List (Int × WatchObj)
  notifs : List Event
  awaiting : List Nat
  resolved : List (Nat × Bool)
  readerCount : Nat
  registered : Bool
  regLog : List Bool
  timers : List Nat
  waiterTimeout : List (Nat × Option Rat)
  delivered : List (Nat × Event)
deriving DecidableEq, Repr

/-- A watcher with no watches, no pending events and no waiters. -/
def emptyWatcher : WatcherState :=
  { watches := [], notifs := [], awaiting := [], resolved := [], readerCount := 0,
    registered := false, regLog := [], timers := [], waiterTimeout := [], delivered := [] }

/-! ## Dispatch (`Watcher._callback`, lines 412-431) -/

/-- Lines 412-417: resolve the record's watch id against the watch table;
a non-negative id must be present (`KeyError` otherwise), a negative id
must carry the queue-overflow bit and yields no handle. -/
def resolveWd (s : WatcherState) (r : RawRec) : Except DispErr (Option WatchObj) :=
  if 0 ≤ r.wd then
    match alook s.watches r.wd with
    | some w => .ok (some w)
    | none => .error .unknownWatchId
  else if r.mask &&& IN_Q_OVERFLOW = 0 then .error .overflowAssert
  else .ok none

/-- Lines 418-422: on an IGNORED record, detach the handle's back
reference (`watch._parent = None`) and evict its table entry.  When the
record carried no handle this is the `AttributeError` on `None`. -/
def applyIgnored (s : WatcherState) (r : RawRec) (watch0 : Option WatchObj) :
    Except DispErr (Option WatchObj × List (Int × WatchObj)) :=
  if r.mask &&& IN_IGNORED ≠ 0 then
    match watch0 with
    | none => .error .noneParent
    | some w => .ok (some { w with parentRef := none }, aerase s.watches r.wd)
  else .ok (watch0, s.watches)

/-- Lines 423-431: append the event to the pending queue, and when the
queue was empty and a waiter is parked, resolve the head waiter's future
with `True` and remove it from the waiter queue. -/
def commitRecord (s : WatcherState) (watches1 : List (Int × WatchObj)) (ev : Event) :
    WatcherState :=
  match s.awaiting, s.notifs with
  | w :: rest, [] =>
      { s with watches := watches1, notifs := s.notifs ++ [ev], awaiting := rest,
               resolved := s.resolved ++ [(w, true)] }
  | _, _ => { s with watches := watches1, notifs := s.notifs ++ [ev] }

/-- One iteration of the dispatch loop of `Watcher._callback` over an
already-decoded record. -/
def processRecord (s : WatcherState) (r : RawRec) : Except DispErr WatcherState :=
  match resolveWd s r with
  | .error e => .error e
  | .ok watch0 =>
      match applyIgnored s r watch0 with
      | .error e => .error e
      | .ok (watch1, watches1) =>
          .ok (commitRecord s watches1
            { watch := watch1, mask := r.mask, cookie := r.cookie, pathname := r.name })

/-- The whole dispatch callback over a batch of decoded records: records
are processed in order; an error aborts the batch but keeps the state
reached so far (the Python exception propagates out of the callback). -/
def runBatch : WatcherState → List RawRec → WatcherState × Option DispErr
  | s, [] => (s, none)
  | s, r :: rest =>
      match processRecord s r with
      | .error e => (s, some e)
      | .ok s2 => runBatch s2 rest

/-! ## `get()` scheduling (`Watcher.get`, `Watcher._add_remove_watch`) -/

/-- `loop.add_reader(self.fd, self._callback)` via `_add_remove_watch(True)`. -/
def addReader (s : WatcherState) : WatcherState :=
  { s with registered := true, regLog := s.regLog ++ [true] }

/-- `loop.remove_reader(self.fd)` via `_add_remove_watch(False)`. -/
def removeReader (s : WatcherState) : WatcherState :=
  { s with registered := false, regLog := s.regLog ++ [false] }

/-- Lines 458-471 of `Watcher.get` when the call actually parks: arm the
timer when a timeout was given, append the waiter to the queue, register
the reader callback exactly when the reader count was zero, and increment
the count. -/
def parkStep (s : WatcherState) (w : Nat) (t : Option Rat) : WatcherState :=
  let s1 := if t.isSome then { s with timers := s.timers ++ [w] } else s
  let s2 := { s1 with awaiting := s1.awaiting ++ [w],
                      waiterTimeout := s1.waiterTimeout ++ [(w, t)] }
  let s3 := if s2.readerCount = 0 then addReader s2 else s2
  { s3 with readerCount := s3.readerCount + 1 }

/-- What a `get()` call does at a scheduling point: return an event,
return `None`, or suspend. -/
inductive GetOutcome
  | gotEvent (e : Event)
  | returnedNone
  | parked
deriving DecidableEq, Repr

/-- The synchronous prefix of `Watcher.get` (lines 453-471): pop the
oldest event if one is queued; otherwise return `None` at once when the
timeout is `≤ 0`; otherwise park. -/
def getEnter (s : WatcherState) (w : Nat) (t : Option Rat) : WatcherState × GetOutcome :=
  match s.notifs with
  | e :: rest =>
      ({ s with notifs := rest, delivered := s.delivered ++ [(w, e)] }, .gotEvent e)
  | [] =>
      match t with
      | some tv =>
          if tv ≤ 0 then (s, .returnedNone) else (parkStep s w (some tv), .parked)
      | none => (parkStep s w none, .parked)

/-- Lines 473-484 of `Watcher.get`, run when the awaited future resolves:
decrement the reader count, deregister the callback exactly when it
reaches zero, cancel the timer if still armed, and drop the waiter from
the queue if still present. -/
def wakeStep (s : WatcherState) (w : Nat) : WatcherState :=
  let s1 := { s with readerCount := s.readerCount - 1 }
  let s2 := if s1.readerCount = 0 then removeReader s1 else s1
  { s2 with timers := s2.timers.erase w, awaiting := s2.awaiting.erase w }

/-- Bookkeeping for a resuming task consuming its future's result: the
future is dropped from the pending-resolution set and the waiter's
timeout record is retired. -/
def consumeFuture (s : WatcherState) (w : Nat) : WatcherState :=
  { s with resolved := aerase s.resolved w, waiterTimeout := aerase s.waiterTimeout w }

/-- Resumption of a `get()` call whose future has been resolved: the wake
bookkeeping, then either return the result of the timeout (`False`), pop
the now-available event, or loop around and park again (lines 453-489).
A waiter whose future is unresolved cannot resume. -/
def resume (s : WatcherState) (w : Nat) : WatcherState × Option GetOutcome :=
  match alook s.resolved w with
  | none => (s, none)
  | some gotOne =>
      let t := (alook s.waiterTimeout w).getD none
      let s1 := wakeStep (consumeFuture s w) w
      if gotOne then
        match s1.notifs with
        | e :: rest =>
            ({ s1 with notifs := rest, delivered := s1.delivered ++ [(w, e)] },
             some (.gotEvent e))
        | [] =>
            match t with
            | some tv =>
                if tv ≤ 0 then (s1, some .returnedNone)
                else (parkStep s1 w (some tv), some .parked)
            | none => (parkStep s1 w none, some .parked)
      else (s1, some .returnedNone)

/-- The `timedout` closure of `Watcher.get` (lines 443-448): when the
timer is still armed and the future not yet resolved, resolve it with
`False`. -/
def timerFire (s : WatcherState) (w : Nat) : WatcherState :=
  if w ∈ s.timers ∧ alook s.resolved w = none then
    { s with resolved := s.resolved ++ [(w, false)], timers := s.timers.erase w }
  else s

/-- The operations that can hit a `Watcher`'s scheduling state. -/
inductive WOp
  | enter (w : Nat) (t : Option Rat)
  | resumeOp (w : Nat)
  | batch (rs : List RawRec)
  | timer (w : Nat)

/-- State reached after one operation. -/
def applyOp (op : WOp) (s : WatcherState) : WatcherState :=
  match op with
  | .enter w t => (getEnter s w t).1
  | .resumeOp w => (resume s w).1
  | .batch rs => (runBatch s rs).1
  | .timer w => timerFire s w

/-! ## Reader-registration invariant (claim C5) -/

/-- The reader callback is registered exactly when at least one `get()`
call is currently parked (counted by `_reader_count`). -/
def RegInv (s : WatcherState) : Prop := s.registered = true ↔ 0 < s.readerCount

theorem parkStep_spec (s : WatcherState) (w : Nat) (t : Option Rat) :
    (parkStep s w t).readerCount = s.readerCount + 1
  ∧ (parkStep s w t).registered = (if s.readerCount = 0 then true else s.registered)
  ∧ (parkStep s w t).regLog =
      (if s.readerCount = 0 then s.regLog ++ [true] else s.regLog) := by
  by_cases hc : s.readerCount = 0 <;> rcases t with _ | tv <;>
    simp [parkStep, addReader, hc]

theorem wakeStep_spec (s : WatcherState) (w : Nat) :
    (wakeStep s w).readerCount = s.readerCount - 1
  ∧ (wakeStep s w).registered = (if s.readerCount - 1 = 0 then false else s.registered)
  ∧ (wakeStep s w).regLog =
      (if s.readerCount - 1 = 0 then s.regLog ++ [false] else s.regLog) := by
  by_cases hc : s.readerCount - 1 = 0 <;>
    simp [wakeStep, removeReader, hc]

theorem regInv_parkStep (s : WatcherState) (w : Nat) (t : Option Rat)
    (h : RegInv s) : RegInv (parkStep s w t) := by
  obtain ⟨h1, h2, h3⟩ := parkStep_spec s w t
  rw [RegInv, h1, h2]
  by_cases hc : s.readerCount = 0
  · simp [hc]
  · have hreg : s.registered = true := h.mpr (by omega)
    simp [hc, hreg]

theorem regInv_wakeStep (s : WatcherState) (w : Nat)
    (h : RegInv s) : RegInv (wakeStep s w) := by
  obtain ⟨h1, h2, h3⟩ := wakeStep_spec s w
  rw [RegInv, h1, h2]
  by_cases hc : s.readerCount - 1 = 0
  · simp [hc]
  · have hreg : s.registered = true := h.mpr (by omega)
    simp [hc, hreg]
    omega

theorem commitRecord_frame (s : WatcherState) (watches1 : List (Int × WatchObj))
    (ev : Event) :
    (commitRecord s watches1 ev).readerCount = s.readerCount
  ∧ (commitRecord s watches1 ev).registered = s.registered
  ∧ (commitRecord s watches1 ev).regLog = s.regLog
  ∧ (commitRecord s watches1 ev).timers = s.timers
  ∧ (commitRecord s watches1 ev).waiterTimeout = s.waiterTimeout
  ∧ (commitRecord s watches1 ev).delivered = s.delivered := by
  rw [commitRecord]
  rcases s.awaiting with _ | ⟨w0, rest⟩ <;> rcases hn : s.notifs with _ | ⟨e0, nrest⟩ <;>
    simp

theorem processRecord_frame (s : WatcherState) (r : RawRec) (s2 : WatcherState)
    (h : processRecord s r = .ok s2) :
    s2.readerCount = s.readerCount ∧ s2.registered = s.registered
  ∧ s2.regLog = s.regLog ∧ s2.timers = s.timers
  ∧ s2.waiterTimeout = s.waiterTimeout ∧ s2.delivered = s.delivered := by
  rw [processRecord] at h
  rcases h1 : resolveWd s r with e | watch0 <;> rw [h1] at h <;> simp at h
  rcases h2 : applyIgnored s r watch0 with e | ⟨watch1, watches1⟩ <;> rw [h2] at h <;>
    simp at h
  rw [← h]
  exact commitRecord_frame _ _ _

theorem runBatch_frame (rs : List RawRec) (s : WatcherState) :
    (runBatch s rs).1.readerCount = s.readerCount
  ∧ (runBatch s rs).1.registered = s.registered
  ∧ (runBatch s rs).1.regLog = s.regLog := by
  induction rs generalizing s with
  | nil => exact ⟨rfl, rfl, rfl⟩
  | cons r rest ih =>
      rw [runBatch]
      rcases h : processRecord s r with e | s2
      · exact ⟨rfl, rfl, rfl⟩
      · obtain ⟨f1, f2, f3, _⟩ := processRecord_frame s r s2 h
        obtain ⟨g1, g2, g3⟩ := ih s2
        exact ⟨by rw [g1, f1], by rw [g2, f2], by rw [g3, f3]⟩

theorem regInv_applyOp (s : WatcherState) (op : WOp) (h : RegInv s) :
    RegInv (applyOp op s) := by
  cases op with
  | enter w t =>
      show RegInv (getEnter s w t).1
      rcases hn : s.notifs with _ | ⟨e, rest⟩
      · rcases t with _ | tv
        · simpa [getEnter, hn] using regInv_parkStep s w none h
        · by_cases hc : tv ≤ 0
          · simpa [getEnter, hn, hc] using h
          · simpa [getEnter, hn, hc] using regInv_parkStep s w (some tv) h
      · have : (getEnter s w t).1 =
            { s with notifs := rest, delivered := s.delivered ++ [(w, e)] } := by
          simp [getEnter, hn]
        rw [this]
        exact h
  | resumeOp w =>
      show RegInv (resume s w).1
      have hwake : RegInv (wakeStep (consumeFuture s w) w) :=
        regInv_wakeStep (consumeFuture s w) w h
      rcases hr : alook s.resolved w with _ | gotOne
      · simpa [resume, hr] using h
      · rcases hg : gotOne with _ | _
        · simpa [resume, hr, hg] using hwake
        · rcases hn : (wakeStep (consumeFuture s w) w).notifs with _ | ⟨e, rest⟩
          · rcases ht : (alook s.waiterTimeout w).getD none with _ | tv
            · simpa [resume, hr, hg, hn, ht] using regInv_parkStep _ w none hwake
            · by_cases hc : tv ≤ 0
              · simpa [resume, hr, hg, hn, ht, hc] using hwake
              · simpa [resume, hr, hg, hn, ht, hc] using regInv_parkStep _ w (some tv) hwake
          · simpa [resume, hr, hg, hn] using hwake
  | batch rs =>
      show RegInv (runBatch s rs).1
      obtain ⟨g1, g2, _⟩ := runBatch_frame rs s
      rw [RegInv, g1, g2]
      exact h
  | timer w =>
      show RegInv (timerFire s w)
      rw [timerFire]
      by_cases hc : w ∈ s.timers ∧ alook s.resolved w = none <;> simp [hc] <;> exact h

/-- Claim C5 theorem: the reader callback is registered iff at least one
`get()` call is parked; this invariant is preserved by every operation,
and the only registration site (`parkStep`) issues `add_reader` exactly
on the 0-to-1 transition of the count while the only deregistration site
(`wakeStep`) issues `remove_reader` exactly on the 1-to-0 transition. -/
theorem reader_registration_refcount (s : WatcherState) (op : WOp)
    (w : Nat) (t : Option Rat) (h : RegInv s) :
    RegInv (applyOp op s)
  ∧ (parkStep s w t).readerCount = s.readerCount + 1
  ∧ ((parkStep s w t).regLog = s.regLog ++ [true] ↔ s.readerCount = 0)
  ∧ (s.readerCount ≠ 0 → (parkStep s w t).regLog = s.regLog)
  ∧ (0 < s.readerCount →
      (wakeStep s w).readerCount = s.readerCount - 1
    ∧ ((wakeStep s w).regLog = s.regLog ++ [false] ↔ s.readerCount = 1)
    ∧ (s.readerCount ≠ 1 → (wakeStep s w).regLog = s.regLog))
  ∧ (∀ rs, (runBatch s rs).1.regLog = s.regLog
       ∧ (runBatch s rs).1.readerCount = s.readerCount)
  ∧ (timerFire s w).regLog = s.regLog
  ∧ (timerFire s w).readerCount = s.readerCount := by
  obtain ⟨p1, p2, p3⟩ := parkStep_spec s w t
  obtain ⟨q1, q2, q3⟩ := wakeStep_spec s w
  refine ⟨regInv_applyOp s op h, p1, ?_, ?_, ?_, ?_, ?_, ?_⟩
  · rw [p3]
    by_cases hc : s.readerCount = 0 <;> simp [hc]
  · intro hc
    rw [p3, if_neg hc]
  · intro hpos
    refine ⟨q1, ?_, ?_⟩
    · rw [q3]
      by_cases hc : s.readerCount - 1 = 0
      · simp [hc]; omega
      · simp [hc]; omega
    · intro hone
      rw [q3, if_neg (by omega)]
  · intro rs
    obtain ⟨g1, g2, g3⟩ := runBatch_frame rs s
    exact ⟨g3, g1⟩
  · rw [timerFire]
    by_cases hc : w ∈ s.timers ∧ alook s.resolved w = none <;> simp [hc]
  · rw [timerFire]
    by_cases hc : w ∈ s.timers ∧ alook s.resolved w = none <;> simp [hc]

/-- Witness for C5 on the empty watcher and a parking `get()` call. -/
theorem reader_registration_refcount_witness :
    RegInv (applyOp (WOp.enter 1 none) emptyWatcher)
  ∧ (parkStep emptyWatcher 1 none).readerCount = emptyWatcher.readerCount + 1
  ∧ ((parkStep emptyWatcher 1 none).regLog = emptyWatcher.regLog ++ [true] ↔
       emptyWatcher.readerCount = 0) := by
  obtain ⟨h1, h2, h3, _⟩ :=
    reader_registration_refcount emptyWatcher (WOp.enter 1 none) 1 none
      (by simp [RegInv, emptyWatcher])
  exact ⟨h1, h2, h3⟩

/-! ## Per-record dispatch facts (claims C4 and C7) -/

theorem commitRecord_basic (s : WatcherState) (watches1 : List (Int × WatchObj))
    (ev : Event) :
    (commitRecord s watches1 ev).notifs = s.notifs ++ [ev]
  ∧ (commitRecord s watches1 ev).watches = watches1 := by
  rw [commitRecord]
  rcases s.awaiting with _ | ⟨w0, rest⟩ <;> rcases hn : s.notifs with _ | ⟨e0, nrest⟩ <;>
    simp [hn]

/-- Claim C4 amended theorem: a record with watch id −1 whose mask carries
the queue-overflow bit and not the IGNORED bit becomes an Event with no
handle, leaving the watch table untouched; with the overflow bit absent
the dispatch assertion fires instead.  (When the overflow and IGNORED
bits are both set the source instead crashes on `None._parent`; see the
counterexample.) -/
theorem overflow_record_dispatch (s : WatcherState) (r : RawRec) (hwd : r.wd = -1) :
    (r.mask &&& IN_Q_OVERFLOW ≠ 0 → r.mask &&& IN_IGNORED = 0 →
       ∃ s2, processRecord s r = .ok s2
         ∧ s2.notifs = s.notifs ++
             [{ watch := none, mask := r.mask, cookie := r.cookie, pathname := r.name }]
         ∧ s2.watches = s.watches)
  ∧ (r.mask &&& IN_Q_OVERFLOW = 0 → processRecord s r = .error .overflowAssert) := by
  have hneg : ¬ (0 : Int) ≤ r.wd := by rw [hwd]; norm_num
  constructor
  · intro h1 h2
    refine ⟨commitRecord s s.watches
      { watch := none, mask := r.mask, cookie := r.cookie, pathname := r.name },
      ?_, (commitRecord_basic _ _ _).1, (commitRecord_basic _ _ _).2⟩
    simp [processRecord, resolveWd, applyIgnored, hneg, h1, h2]
  · intro h1
    simp [processRecord, resolveWd, hneg, h1]

/-- Witness for C4 on a pure overflow record against the empty watcher. -/
theorem overflow_record_dispatch_witness :
    ∃ s2, processRecord emptyWatcher
        { wd := -1, mask := IN_Q_OVERFLOW, cookie := 0, name := [] } = .ok s2
      ∧ s2.notifs = emptyWatcher.notifs ++
          [{ watch := none, mask := IN_Q_OVERFLOW, cookie := 0, pathname := [] }]
      ∧ s2.watches = emptyWatcher.watches :=
  (overflow_record_dispatch emptyWatcher
    { wd := -1, mask := IN_Q_OVERFLOW, cookie := 0, name := [] } rfl).1
    (by decide) (by decide)

/-- Counterexample for C4 as stated: a record with watch id −1 and the
queue-overflow bit set does NOT always become an Event — when the mask
also carries the IGNORED bit, the dispatch code executes
`watch._parent = None` on Python `None` and crashes with an
`AttributeError` instead of producing an Event. -/
theorem overflow_with_ignored_crashes :
    processRecord emptyWatcher
      { wd := -1, mask := IN_Q_OVERFLOW ||| IN_IGNORED, cookie := 0, name := [] } =
      .error .noneParent := rfl

/-- `Watch.valid` (src/inotify.py lines 197-203): the Python test
`self._parent != None and self.wd != None` on the handle's fields. -/
def validW (w : WatchObj) : Bool := w.parentRef.isSome && w.wd.isSome

/-- Claim C7 amended theorem: dispatching a record whose mask carries the
IGNORED bit detaches the handle's back-reference (`_parent = None`),
evicts its entry from the watch table, and leaves the handle inert
(`valid` is false) — but the handle's watch id field is NOT cleared: it
keeps its old value. -/
theorem ignored_invalidation (s : WatcherState) (r : RawRec) (wobj : WatchObj)
    (h0 : 0 ≤ r.wd) (hlk : alook s.watches r.wd = some wobj)
    (hig : r.mask &&& IN_IGNORED ≠ 0) :
    ∃ s2, processRecord s r = .ok s2
      ∧ alook s2.watches r.wd = none
      ∧ s2.notifs = s.notifs ++
          [{ watch := some { wobj with parentRef := none }, mask := r.mask,
             cookie := r.cookie, pathname := r.name }]
      ∧ ({ wobj with parentRef := none } : WatchObj).wd = wobj.wd
      ∧ validW { wobj with parentRef := none } = false := by
  refine ⟨commitRecord s (aerase s.watches r.wd)
      { watch := some { wobj with parentRef := none }, mask := r.mask,
        cookie := r.cookie, pathname := r.name }, ?_, ?_, (commitRecord_basic _ _ _).1,
      rfl, rfl⟩
  · simp [processRecord, resolveWd, applyIgnored, h0, hlk, hig]
  · rw [(commitRecord_basic _ _ _).2]
    exact alook_aerase_self _ _

/-- A live watch handle with watch id 5 registered in a watcher's table,
and an IGNORED record for it. -/
def igWatch : WatchObj := { wd := some 5, parentRef := some true, pathname := [], mask := 2 }

def igState : WatcherState := { emptyWatcher with watches := [(5, igWatch)] }

def igRec : RawRec := { wd := 5, mask := IN_IGNORED, cookie := 0, name := [] }

/-- Witness for C7 on the concrete IGNORED record. -/
theorem ignored_invalidation_witness :
    ∃ s2, processRecord igState igRec = .ok s2
      ∧ alook s2.watches igRec.wd = none
      ∧ s2.notifs = igState.notifs ++
          [{ watch := some { igWatch with parentRef := none }, mask := igRec.mask,
             cookie := igRec.cookie, pathname := igRec.name }]
      ∧ ({ igWatch with parentRef := none } : WatchObj).wd = igWatch.wd
      ∧ validW { igWatch with parentRef := none } = false :=
  ignored_invalidation igState igRec igWatch (by decide) (by decide) (by decide)

/-- Counterexample for C7 as stated: after dispatching the IGNORED record
for watch id 5, the handle delivered inside the Event still has its watch
id field set to 5 — the claim says the watch id is cleared, but the
source only detaches `_parent` and pops the table entry, never touching
`wd`. -/
theorem ignored_keeps_wd_set :
    (processRecord igState igRec).map
        (fun s2 => s2.notifs.map (fun e => e.watch.map (fun wo => wo.wd))) =
      .ok [some (some 5)] := rfl

/-! ## Non-positive timeouts (claim C10) -/

/-- Claim C10 theorem: `get()` with a strictly negative timeout returns
`None` immediately and changes nothing at all (no waiter queued, no
reader registration, no timer armed) when the event queue is empty; when
the queue is non-empty the oldest event is returned regardless of the
timeout. -/
theorem negative_timeout_get (s : WatcherState) (w : Nat) (t : Rat) (ht : t < 0) :
    (s.notifs = [] → getEnter s w (some t) = (s, .returnedNone))
  ∧ (∀ e rest, s.notifs = e :: rest →
       getEnter s w (some t) =
         ({ s with notifs := rest, delivered := s.delivered ++ [(w, e)] },
          .gotEvent e)) := by
  constructor
  · intro hn
    simp [getEnter, hn, le_of_lt ht]
  · intro e rest hn
    simp [getEnter, hn]

/-- A watcher with one pending event. -/
def neEvent : Event := { watch := none, mask := 2, cookie := 0, pathname := [] }

def neState : WatcherState := { emptyWatcher with notifs := [neEvent] }

/-- Witness for C10 with timeout −1 against an empty and a non-empty
queue. -/
theorem negative_timeout_get_witness :
    getEnter emptyWatcher 7 (some (-1)) = (emptyWatcher, .returnedNone)
  ∧ getEnter neState 7 (some (-1)) =
      ({ neState with notifs := [], delivered := neState.delivered ++ [(7, neEvent)] },
       .gotEvent neEvent) :=
  ⟨(negative_timeout_get emptyWatcher 7 (-1) (by norm_num)).1 rfl,
   (negative_timeout_get neState 7 (-1) (by norm_num)).2 neEvent [] rfl⟩

/-! ## Single-batch FIFO starvation (claim C1) -/

/-- A watcher with one registered watch (id 1). -/
def fifoWatch : WatchObj := { wd := some 1, parentRef := some true, pathname := [], mask := 4095 }

def fifoInit : WatcherState := { emptyWatcher with watches := [(1, fifoWatch)] }

/-- The n-th record of the three-event dispatch batch (MODIFY events with
distinct cookies). -/
def fifoRec (c : Nat) : RawRec := { wd := 1, mask := 2, cookie := c, name := [] }

def fifoEv (c : Nat) : Event := { watch := some fifoWatch, mask := 2, cookie := c, pathname := [] }

/-- State after waiters 1, 2, 3 call `get()` (no timeout) in that order on
the empty queue. -/
def fifoParked : WatcherState :=
  (getEnter (getEnter (getEnter fifoInit 1 none).1 2 none).1 3 none).1

/-- State after one dispatch batch delivers three events. -/
def fifoBatched : WatcherState := (runBatch fifoParked [fifoRec 1, fifoRec 2, fifoRec 3]).1

/-- State after waiter 1 (the only resolved waiter) resumes. -/
def fifoAfterW1 : WatcherState := (resume fifoBatched 1).1

/-- Claim C1 evidence: with waiters 1, 2, 3 parked in FIFO order and a
single dispatch batch of three events, only the head waiter's future is
resolved (the per-record wakeup test `len(self._notifs) == 0` is false
for the second and third records), so waiter 1 receives the first event
but waiters 2 and 3 stay parked with unresolved futures while events 2
and 3 sit undelivered in the queue; neither waiter 2 nor waiter 3 can
resume, contradicting the claimed delivery of events 2 and 3 to them. -/
theorem single_batch_starves_fifo_waiters :
    fifoParked.awaiting = [1, 2, 3]
  ∧ (runBatch fifoParked [fifoRec 1, fifoRec 2, fifoRec 3]).2 = none
  ∧ fifoBatched.notifs = [fifoEv 1, fifoEv 2, fifoEv 3]
  ∧ fifoBatched.resolved = [(1, true)]
  ∧ fifoBatched.awaiting = [2, 3]
  ∧ (resume fifoBatched 1).2 = some (.gotEvent (fifoEv 1))
  ∧ fifoAfterW1.delivered = [(1, fifoEv 1)]
  ∧ fifoAfterW1.notifs = [fifoEv 2, fifoEv 3]
  ∧ fifoAfterW1.awaiting = [2, 3]
  ∧ fifoAfterW1.resolved = []
  ∧ fifoAfterW1.timers = []
  ∧ resume fifoAfterW1 2 = (fifoAfterW1, none)
  ∧ resume fifoAfterW1 3 = (fifoAfterW1, none) :=
  ⟨rfl, rfl, rfl, rfl, rfl, rfl, rfl, rfl, rfl, rfl, rfl, rfl, rfl⟩

/-! ## `Watch.remove` and `Watch.valid` (claims C8 and C9) -/

/-- Everything `Watch.remove` can touch: the handle's own fields, the
owning watcher's watch table (meaningful only while the owner is alive),
and the log of `inotify_rm_watch` calls issued to the kernel. -/
structure RemoveCtx where
  handle : WatchObj
  table : List (Int × WatchObj)
  rmLog : List Int
deriving DecidableEq, Repr

/-- `Watch.remove` (src/inotify.py lines 205-216): when both `wd` and the
`_parent` field are set, dereference the weakref; if the owner is alive,
issue `inotify_rm_watch` and pop the table entry; in either case clear
`wd`.  When `wd` or `_parent` is already `None`, do nothing.  The
function has no failure path (kernel errors are deliberately ignored and
the table pop uses a default). -/
def removeW (c : RemoveCtx) : RemoveCtx :=
  match c.handle.wd, c.handle.parentRef with
  | some wd, some alive =>
      if alive then
        { handle := { c.handle with wd := none },
          table := aerase c.table wd,
          rmLog := c.rmLog ++ [wd] }
      else { c with handle := { c.handle with wd := none } }
  | _, _ => c

/-- Claim C8 amended theorem: `remove` on an already-invalid handle (in
the sense of `Watch.valid`) is a strict no-op; `remove` on a handle whose
owning Watcher has been garbage-collected performs no kernel call and no
table change and does not raise — but it does clear the handle's watch id
rather than leaving all state unchanged; and `remove` is idempotent, so
calling it any number of times is safe. -/
theorem remove_idempotent (c : RemoveCtx) :
    (validW c.handle = false → removeW c = c)
  ∧ (c.handle.parentRef = some false →
       (removeW c).rmLog = c.rmLog ∧ (removeW c).table = c.table
         ∧ (removeW c).handle.wd = none
         ∧ (removeW c).handle.parentRef = c.handle.parentRef)
  ∧ removeW (removeW c) = removeW c := by
  rcases hw : c.handle.wd with _ | wd <;>
    rcases hp : c.handle.parentRef with _ | alive
  · exact ⟨fun _ => by simp [removeW, hw, hp], fun hf => by simp [hp] at hf,
      by simp [removeW, hw, hp]⟩
  · refine ⟨fun _ => by simp [removeW, hw, hp], fun hf => ?_, by simp [removeW, hw, hp]⟩
    have : removeW c = c := by simp [removeW, hw, hp]
    rw [this, hw, hp]
    exact ⟨rfl, rfl, rfl, rfl⟩
  · exact ⟨fun _ => by simp [removeW, hw, hp], fun hf => by simp [hp] at hf,
      by simp [removeW, hw, hp]⟩
  · rcases alive with _ | _
    · refine ⟨fun hf => by simp [validW, hw, hp] at hf, fun hf => ?_, ?_⟩
      · refine ⟨by simp [removeW, hw, hp], by simp [removeW, hw, hp],
          by simp [removeW, hw, hp], by simp [removeW, hw, hp]⟩
      · simp [removeW, hw, hp]
    · refine ⟨fun hf => by simp [validW, hw, hp] at hf, fun hf => by simp [hp] at hf, ?_⟩
      simp [removeW, hw, hp]

/-- A handle whose owner's weakref is present but whose referent has been
garbage-collected, and an already-invalidated handle. -/
def deadOwnerCtx : RemoveCtx :=
  { handle := { wd := some 3, parentRef := some false, pathname := [], mask := 2 },
    table := [], rmLog := [] }

def invalidCtx : RemoveCtx :=
  { handle := { wd := none, parentRef := none, pathname := [], mask := 0 },
    table := [], rmLog := [] }

/-- Witness for C8 on concrete invalid and orphaned handles. -/
theorem remove_idempotent_witness :
    removeW invalidCtx = invalidCtx
  ∧ ((removeW deadOwnerCtx).rmLog = deadOwnerCtx.rmLog
      ∧ (removeW deadOwnerCtx).table = deadOwnerCtx.table
      ∧ (removeW deadOwnerCtx).handle.wd = none
      ∧ (removeW deadOwnerCtx).handle.parentRef = deadOwnerCtx.handle.parentRef)
  ∧ removeW (removeW deadOwnerCtx) = removeW deadOwnerCtx :=
  ⟨(remove_idempotent invalidCtx).1 (by decide),
   (remove_idempotent deadOwnerCtx).2.1 (by decide),
   (remove_idempotent deadOwnerCtx).2.2⟩

/-- Counterexample for C8 as stated: removing a handle whose owning
Watcher no longer exists does NOT leave all state unchanged — the
handle's watch id is cleared by the call. -/
theorem remove_dead_owner_changes_state : removeW deadOwnerCtx ≠ deadOwnerCtx := by
  decide

/-- A handle whose owning Watcher has been garbage-collected without the
handle ever being invalidated. -/
def orphanHandle : WatchObj :=
  { wd := some 3, parentRef := some false, pathname := [], mask := 2 }

/-- Counterexample for C9 as stated: `valid` returns true for a handle
whose owning Watcher is gone (`parentRef = some false` models a live
weakref object whose referent has been collected): the source compares
the `_parent` field against `None` instead of dereferencing the weakref,
so owner death alone never makes `valid` false. -/
theorem valid_true_dead_owner :
    validW orphanHandle = true ∧ orphanHandle.parentRef = some false := by
  decide

/-- Claim C9 amended theorem: `valid` is true iff the `_parent` field is
non-`None` and the watch id is set; consequently it is false after any
`remove()` call and after IGNORED invalidation detaches the
back-reference, but it does not consult the liveness of the referenced
Watcher. -/
theorem valid_characterization (w : WatchObj) (c : RemoveCtx) :
    (validW w = true ↔ w.parentRef ≠ none ∧ w.wd ≠ none)
  ∧ validW (removeW c).handle = false
  ∧ validW { w with parentRef := none } = false := by
  refine ⟨?_, ?_, rfl⟩
  · rcases hw : w.wd with _ | wd <;> rcases hp : w.parentRef with _ | alive <;>
      simp [validW, hw, hp]
  · rcases hw : c.handle.wd with _ | wd <;>
      rcases hp : c.handle.parentRef with _ | alive
    · simp [removeW, validW, hw, hp]
    · simp [removeW, validW, hw, hp]
    · simp [removeW, validW, hw, hp]
    · rcases alive with _ | _ <;> simp [removeW, validW, hw, hp]

/-! ## Identity cache (`Watch.__new__` and `Watcher.watch`, claim C6) -/

/-- Fields of a `Watch` object as far as registration is concerned:
`wd` (set in `__new__`), and `pathname`/`mask` (set by `Watcher.watch`
after `__new__` returns). -/
structure CWatch where
  wd : Nat
  pathname : String
  mask : Nat
deriving DecidableEq, Repr

/-- State of one watcher plus the kernel and the process-wide identity
cache.  `kwatches`/`nextWd` model the external `inotify_add_watch`
collaborator (the kernel's path→watch-id table for this channel);
`instances` is `Watch._instances` keyed by `(wd, fd)` and valued by
object identity; `heap` maps object identities to the objects' fields;
`watcherTable` is `Watcher._watches`. -/
structure CacheState where
  fd : Nat
  kwatches : List (String × Nat)
  nextWd : Nat
  instances : List ((Nat × Nat) × Nat)
  heap : List (Nat × CWatch)
  nextObj : Nat
  watcherTable : List (Nat × Nat)
deriving DecidableEq, Repr

/-- Modelled from the spec: the external `add_watch(fd, path, mask)`
collaborator (the raw `inotify_add_watch` system call, excluded from the
repository's own code).  Per the spec, the kernel folds duplicate
registrations of the same path into the existing watch id and assigns a
fresh id to a new path. -/
def kernAddWatch (s : CacheState) (p : String) : CacheState × Nat :=
  match alook s.kwatches p with
  | some wd => (s, wd)
  | none =>
      ({ s with kwatches := s.kwatches ++ [(p, s.nextWd)], nextWd := s.nextWd + 1 },
       s.nextWd)

/-- Heap update at one object identity: assignment of `pathname` and
`mask` to an existing object. -/
def hupd (l : List (Nat × CWatch)) (o : Nat) (p : String) (m : Nat) :
    List (Nat × CWatch) :=
  l.map (fun e => if e.1 = o then (e.1, { e.2 with pathname := p, mask := m }) else e)

/-- Dict assignment `d[k] = v` on an association list. -/
def tupd (l : List (Nat × Nat)) (k v : Nat) : List (Nat × Nat) :=
  if (alook l k).isSome then l.map (fun e => if e.1 = k then (k, v) else e)
  else l ++ [(k, v)]

/-- `Watcher.watch` (src/inotify.py lines 360-375) together with
`Watch.__new__` (lines 179-191): call `inotify_add_watch`, look the
returned id up in the identity cache reusing the cached object when
present and creating a fresh one otherwise, store the object in the
watcher's table, then assign the object's `pathname` and `mask`.
Returns the new state and the identity of the returned handle. -/
def watchOp (s : CacheState) (p : String) (m : Nat) : CacheState × Nat :=
  let kr := kernAddWatch s p
  let s1 := kr.1
  let wd := kr.2
  match alook s1.instances (wd, s1.fd) with
  | some oid =>
      let s2 := { s1 with watcherTable := tupd s1.watcherTable wd oid }
      ({ s2 with heap := hupd s2.heap oid p m }, oid)
  | none =>
      let oid := s1.nextObj
      let s2 := { s1 with instances := s1.instances ++ [((wd, s1.fd), oid)],
                          heap := s1.heap ++
                            [(oid, ({ wd := wd, pathname := "", mask := 0 } : CWatch))],
                          nextObj := s1.nextObj + 1 }
      let s3 := { s2 with watcherTable := tupd s2.watcherTable wd oid }
      ({ s3 with heap := hupd s3.heap oid p m }, oid)

/-- A watcher fresh from `Watcher.create` on channel `fd`, with an empty
kernel table. -/
def initCache (fd : Nat) : CacheState :=
  { fd := fd, kwatches := [], nextWd := 0, instances := [], heap := [], nextObj := 0,
    watcherTable := [] }

/-- A sequence of `watch(path, mask)` registrations, collecting the
returned handle identities in order. -/
def runRegs (s : CacheState) : List (String × Nat) → CacheState × List Nat
  | [] => (s, [])
  | op :: rest =>
      let r1 := watchOp s op.1 op.2
      let r2 := runRegs r1.1 rest
      (r2.1, r1.2 :: r2.2)

/-- The handle the cache associates to a path: its kernel watch id
resolved through the identity cache. -/
def hFor (s : CacheState) (p : String) : Option Nat :=
  (alook s.kwatches p).bind (fun wd => alook s.instances (wd, s.fd))

/-- The mask of the last registration of path `p` in `ops`. -/
def lastMaskOf (ops : List (String × Nat)) (p : String) : Nat :=
  (((ops.filter (fun op => op.1 == p)).getLast?).map Prod.snd).getD 0

/-! ### Association-list lemmas -/

theorem alook_append_some {α β : Type} [DecidableEq α] {l l2 : List (α × β)} {a : α}
    {b : β} (h : alook l a = some b) : alook (l ++ l2) a = some b := by
  induction l with
  | nil => simp [alook] at h
  | cons e rest ih =>
      by_cases he : e.1 = a
      · simpa [alook, he] using by simpa [alook, he] using h
      · rw [alook] at h
        rw [if_neg he] at h
        simpa [alook, he] using ih h

theorem alook_append_none {α β : Type} [DecidableEq α] {l : List (α × β)} {a : α}
    (h : alook l a = none) (l2 : List (α × β)) : alook (l ++ l2) a = alook l2 a := by
  induction l with
  | nil => simp
  | cons e rest ih =>
      by_cases he : e.1 = a
      · rw [alook, if_pos he] at h
        cases h
      · rw [alook, if_neg he] at h
        simpa [alook, he] using ih h

theorem alook_mem {α β : Type} [DecidableEq α] {l : List (α × β)} {a : α} {b : β}
    (h : alook l a = some b) : (a, b) ∈ l := by
  induction l with
  | nil => simp [alook] at h
  | cons e rest ih =>
      rcases e with ⟨k, v⟩
      by_cases he : k = a
      · simp [alook, he] at h
        rw [← he, ← h]
        exact List.mem_cons_self _ _
      · simp [alook, he] at h
        exact List.mem_cons_of_mem _ (ih h)

theorem alook_not_mem_none {α β : Type} [DecidableEq α] {l : List (α × β)} {a : α}
    (h : ∀ e ∈ l, e.1 ≠ a) : alook l a = none := by
  induction l with
  | nil => rfl
  | cons e rest ih =>
      rw [alook, if_neg (h e (by simp))]
      exact ih fun x hx => h x (by simp [hx])

theorem alook_none_not_mem {α β : Type} [DecidableEq α] {l : List (α × β)} {a : α}
    (h : alook l a = none) (b : β) : (a, b) ∉ l := by
  induction l with
  | nil => simp
  | cons e rest ih =>
      by_cases he : e.1 = a
      · rw [alook, if_pos he] at h
        cases h
      · rw [alook, if_neg he] at h
        intro hm
        rcases List.mem_cons.mp hm with hm | hm
        · exact he (by rw [← hm])
        · exact ih h hm

theorem alook_append_singleton_ne {α β : Type} [DecidableEq α] (l : List (α × β))
    {a k : α} (v : β) (h : k ≠ a) : alook (l ++ [(k, v)]) a = alook l a := by
  rcases hl : alook l a with _ | b
  · rw [alook_append_none hl]
    simp [alook, h]
  · rw [alook_append_some hl]

theorem alook_hupd_self (l : List (Nat × CWatch)) (o : Nat) (p : String) (m : Nat) :
    alook (hupd l o p m) o =
      (alook l o).map (fun w => { w with pathname := p, mask := m }) := by
  induction l with
  | nil => rfl
  | cons e rest ih =>
      rcases e with ⟨k, v⟩
      by_cases hk : k = o
      · simp [hupd, alook, hk]
      · simp [hupd, alook, hk] at ih ⊢
        exact ih

theorem alook_hupd_ne (l : List (Nat × CWatch)) {o o2 : Nat} (p : String) (m : Nat)
    (h : o2 ≠ o) : alook (hupd l o p m) o2 = alook l o2 := by
  induction l with
  | nil => rfl
  | cons e rest ih =>
      rcases e with ⟨k, v⟩
      by_cases hk : k = o
      · have hk2 : ¬ k = o2 := by rw [hk]; exact fun hx => h hx.symm
        simp [hupd, alook, hk, hk2, Ne.symm h] at ih ⊢
        exact ih
      · by_cases hk2 : k = o2
        · simp [hupd, alook, hk, hk2, h]
        · simp [hupd, alook, hk, hk2] at ih ⊢
          exact ih

theorem mem_map_fst {α β : Type} {l : List (α × β)} {a : α} :
    a ∈ l.map Prod.fst ↔ ∃ b, (a, b) ∈ l := by
  constructor
  · intro h
    rcases List.mem_map.mp h with ⟨⟨k, v⟩, he, hfst⟩
    simp only [Prod.fst] at hfst
    subst hfst
    exact ⟨v, he⟩
  · rintro ⟨b, hb⟩
    exact List.mem_map.mpr ⟨(a, b), hb, rfl⟩

theorem hupd_fst_mem {l : List (Nat × CWatch)} {o : Nat} {p : String} {m : Nat}
    {e : Nat × CWatch} (he : e ∈ hupd l o p m) : ∃ e0 ∈ l, e.1 = e0.1 := by
  rcases List.mem_map.mp he with ⟨e0, he0, heq⟩
  refine ⟨e0, he0, ?_⟩
  rw [← heq]
  by_cases hk : e0.1 = o <;> simp [hk]

/-! ### The cache invariant -/

/-- Invariant of every state reachable by registrations from a fresh
watcher: kernel watch ids are bounded and distinct per path, the identity
cache has unique keys and values bound by the allocation counters, and
every cached identity has a heap object. -/
structure CacheInv (s : CacheState) : Prop where
  kwBound : ∀ e ∈ s.kwatches, e.2 < s.nextWd
  kwInj : ∀ e1 ∈ s.kwatches, ∀ e2 ∈ s.kwatches, e1.2 = e2.2 → e1.1 = e2.1
  instKey : ∀ e ∈ s.instances, e.1.2 = s.fd ∧ e.1.1 < s.nextWd ∧ e.2 < s.nextObj
  instInj : ∀ e1 ∈ s.instances, ∀ e2 ∈ s.instances, e1.2 = e2.2 → e1.1 = e2.1
  instKeysNodup : (s.instances.map Prod.fst).Nodup
  heapBound : ∀ e ∈ s.heap, e.1 < s.nextObj
  instHeap : ∀ e ∈ s.instances, (alook s.heap e.2).isSome

theorem cacheInv_init (fd : Nat) : CacheInv (initCache fd) := by
  constructor <;> simp [initCache]

/-! ### Case analysis of `watchOp` -/

/-- Initial fields of a freshly constructed `Watch` object, before
`Watcher.watch` assigns `pathname` and `mask`. -/
def cinit (wd : Nat) : CWatch := { wd := wd, pathname := "", mask := 0 }

theorem watchOp_case_hit (s : CacheState) (p : String) (m : Nat) {wd oid : Nat}
    (h1 : alook s.kwatches p = some wd) (h2 : alook s.instances (wd, s.fd) = some oid) :
    watchOp s p m =
      ({ s with watcherTable := tupd s.watcherTable wd oid,
                heap := hupd s.heap oid p m }, oid) := by
  simp [watchOp, kernAddWatch, h1, h2]

theorem watchOp_case_newInst (s : CacheState) (p : String) (m : Nat) {wd : Nat}
    (h1 : alook s.kwatches p = some wd) (h2 : alook s.instances (wd, s.fd) = none) :
    watchOp s p m =
      ({ s with instances := s.instances ++ [((wd, s.fd), s.nextObj)],
                heap := hupd (s.heap ++ [(s.nextObj, cinit wd)]) s.nextObj p m,
                nextObj := s.nextObj + 1,
                watcherTable := tupd s.watcherTable wd s.nextObj }, s.nextObj) := by
  simp [watchOp, kernAddWatch, h1, h2, cinit]

theorem watchOp_case_newPath (s : CacheState) (p : String) (m : Nat)
    (h1 : alook s.kwatches p = none)
    (h2 : alook s.instances (s.nextWd, s.fd) = none) :
    watchOp s p m =
      ({ s with kwatches := s.kwatches ++ [(p, s.nextWd)], nextWd := s.nextWd + 1,
                instances := s.instances ++ [((s.nextWd, s.fd), s.nextObj)],
                heap := hupd (s.heap ++ [(s.nextObj, cinit s.nextWd)]) s.nextObj p m,
                nextObj := s.nextObj + 1,
                watcherTable := tupd s.watcherTable s.nextWd s.nextObj }, s.nextObj) := by
  simp [watchOp, kernAddWatch, h1, h2, cinit]

/-! ### Heap facts for the two allocation shapes -/

theorem freshHeap_spec (l : List (Nat × CWatch)) (n w : Nat) (p : String) (m : Nat)
    (hb : ∀ e ∈ l, e.1 < n) :
    alook (hupd (l ++ [(n, cinit w)]) n p m) n =
      some { wd := w, pathname := p, mask := m }
  ∧ (∀ o, o ≠ n → alook (hupd (l ++ [(n, cinit w)]) n p m) o = alook l o)
  ∧ (∀ e ∈ hupd (l ++ [(n, cinit w)]) n p m, e.1 < n + 1) := by
  have hnone : alook l n = none :=
    alook_not_mem_none (fun e he => by have := hb e he; omega)
  have hone : alook (l ++ [(n, cinit w)]) n = some (cinit w) := by
    rw [alook_append_none hnone]
    simp [alook]
  refine ⟨?_, ?_, ?_⟩
  · rw [alook_hupd_self, hone]
    rfl
  · intro o ho
    rw [alook_hupd_ne _ _ _ ho, alook_append_singleton_ne _ _ (fun hx => ho hx.symm)]
  · intro e he
    rcases hupd_fst_mem he with ⟨e0, he0, heq⟩
    rcases List.mem_append.mp he0 with h0 | h0
    · have := hb e0 h0
      omega
    · rcases List.mem_singleton.mp h0 with rfl
      rw [heq]
      omega

theorem hitHeap_spec (l : List (Nat × CWatch)) (o : Nat) (p : String) (m : Nat)
    (hsome : (alook l o).isSome) :
    (∃ w, alook (hupd l o p m) o = some { wd := w, pathname := p, mask := m })
  ∧ (∀ o2, o2 ≠ o → alook (hupd l o p m) o2 = alook l o2)
  ∧ (∀ n, (∀ e ∈ l, e.1 < n) → ∀ e ∈ hupd l o p m, e.1 < n) := by
  refine ⟨?_, fun o2 ho2 => alook_hupd_ne _ _ _ ho2, ?_⟩
  · rcases hl : alook l o with _ | w0
    · rw [hl] at hsome
      simp at hsome
    · exact ⟨w0.wd, by rw [alook_hupd_self, hl]; rfl⟩
  · intro n hn e he
    rcases hupd_fst_mem he with ⟨e0, he0, heq⟩
    rw [heq]
    exact hn e0 he0

/-! ### One registration preserves the invariant and the cache contract -/

theorem watchOp_spec (s : CacheState) (p : String) (m : Nat) (inv : CacheInv s) :
    CacheInv (watchOp s p m).1
  ∧ (watchOp s p m).1.fd = s.fd
  ∧ hFor (watchOp s p m).1 p = some (watchOp s p m).2
  ∧ (∀ q o, hFor s q = some o → hFor (watchOp s p m).1 q = some o)
  ∧ (∃ w, alook (watchOp s p m).1.heap (watchOp s p m).2 =
       some { wd := w, pathname := p, mask := m })
  ∧ (∀ o, o ≠ (watchOp s p m).2 → alook (watchOp s p m).1.heap o = alook s.heap o) := by
  rcases h1 : alook s.kwatches p with _ | wd
  · -- new path: fresh watch id and fresh object
    have h2 : alook s.instances (s.nextWd, s.fd) = none := by
      apply alook_not_mem_none
      intro e he heq
      have hk := (inv.instKey e he).2.1
      rw [heq] at hk
      simp at hk
    rw [watchOp_case_newPath s p m h1 h2]
    obtain ⟨hH1, hH2, hH3⟩ := freshHeap_spec s.heap s.nextObj s.nextWd p m inv.heapBound
    have hkw : alook (s.kwatches ++ [(p, s.nextWd)]) p = some s.nextWd := by
      rw [alook_append_none h1]
      simp [alook]
    have hin : alook (s.instances ++ [((s.nextWd, s.fd), s.nextObj)]) (s.nextWd, s.fd) =
        some s.nextObj := by
      rw [alook_append_none h2]
      simp [alook]
    refine ⟨?_, rfl, ?_, ?_, ⟨s.nextWd, hH1⟩, hH2⟩
    · constructor
      · intro e he
        show e.2 < s.nextWd + 1
        rcases List.mem_append.mp he with h0 | h0
        · have := inv.kwBound e h0
          omega
        · rcases List.mem_singleton.mp h0 with rfl
          show s.nextWd < s.nextWd + 1
          omega
      · intro e1 ha e2 hb hv
        rcases List.mem_append.mp ha with ha | ha <;> rcases List.mem_append.mp hb with hb | hb
        · exact inv.kwInj e1 ha e2 hb hv
        · rcases List.mem_singleton.mp hb with rfl
          have := inv.kwBound e1 ha
          exact absurd hv (by simp; omega)
        · rcases List.mem_singleton.mp ha with rfl
          have := inv.kwBound e2 hb
          exact absurd hv (by simp; omega)
        · rcases List.mem_singleton.mp ha with rfl
          rcases List.mem_singleton.mp hb with rfl
          rfl
      · intro e he
        show e.1.2 = s.fd ∧ e.1.1 < s.nextWd + 1 ∧ e.2 < s.nextObj + 1
        rcases List.mem_append.mp he with h0 | h0
        · obtain ⟨a, b, c⟩ := inv.instKey e h0
          exact ⟨a, by omega, by omega⟩
        · rcases List.mem_singleton.mp h0 with rfl
          exact ⟨rfl, by show s.nextWd < s.nextWd + 1; omega,
            by show s.nextObj < s.nextObj + 1; omega⟩
      · intro e1 ha e2 hb hv
        rcases List.mem_append.mp ha with ha | ha <;> rcases List.mem_append.mp hb with hb | hb
        · exact inv.instInj e1 ha e2 hb hv
        · rcases List.mem_singleton.mp hb with rfl
          have := (inv.instKey e1 ha).2.2
          exact absurd hv (by simp; omega)
        · rcases List.mem_singleton.mp ha with rfl
          have := (inv.instKey e2 hb).2.2
          exact absurd hv (by simp; omega)
        · rcases List.mem_singleton.mp ha with rfl
          rcases List.mem_singleton.mp hb with rfl
          rfl
      · have hk : ((s.nextWd, s.fd) : Nat × Nat) ∉ s.instances.map Prod.fst := by
          intro hmem
          rcases mem_map_fst.mp hmem with ⟨b, hb⟩
          exact absurd (inv.instKey _ hb).2.1 (by simp)
        show ((s.instances ++ [((s.nextWd, s.fd), s.nextObj)]).map Prod.fst).Nodup
        rw [List.map_append]
        simp [List.nodup_append, inv.instKeysNodup, hk]
      · exact hH3
      · intro e he
        rcases List.mem_append.mp he with h0 | h0
        · have hne : e.2 ≠ s.nextObj := by
            have := (inv.instKey e h0).2.2
            omega
          show (alook (hupd (s.heap ++ [(s.nextObj, cinit s.nextWd)]) s.nextObj p m)
            e.2).isSome
          rw [hH2 e.2 hne]
          exact inv.instHeap e h0
        · rcases List.mem_singleton.mp h0 with rfl
          show (alook (hupd (s.heap ++ [(s.nextObj, cinit s.nextWd)]) s.nextObj p m)
            s.nextObj).isSome
          rw [hH1]
          rfl
    · show (alook (s.kwatches ++ [(p, s.nextWd)]) p).bind
          (fun wd => alook (s.instances ++ [((s.nextWd, s.fd), s.nextObj)]) (wd, s.fd)) =
        some s.nextObj
      rw [hkw]
      simpa using hin
    · intro q o hq
      rw [hFor] at hq
      rcases hkq : alook s.kwatches q with _ | wq <;> rw [hkq] at hq
      · simp at hq
      · simp only [Option.some_bind] at hq
        show (alook (s.kwatches ++ [(p, s.nextWd)]) q).bind
            (fun wd => alook (s.instances ++ [((s.nextWd, s.fd), s.nextObj)]) (wd, s.fd)) =
          some o
        rw [alook_append_some hkq]
        simpa using alook_append_some hq
  · rcases h2 : alook s.instances (wd, s.fd) with _ | oid
    · -- known path, object no longer cached: fresh object for the old id
      have hwd : wd < s.nextWd := inv.kwBound _ (alook_mem h1)
      rw [watchOp_case_newInst s p m h1 h2]
      obtain ⟨hH1, hH2, hH3⟩ := freshHeap_spec s.heap s.nextObj wd p m inv.heapBound
      have hin : alook (s.instances ++ [((wd, s.fd), s.nextObj)]) (wd, s.fd) =
          some s.nextObj := by
        rw [alook_append_none h2]
        simp [alook]
      refine ⟨?_, rfl, ?_, ?_, ⟨wd, hH1⟩, hH2⟩
      · constructor
        · exact inv.kwBound
        · exact inv.kwInj
        · intro e he
          show e.1.2 = s.fd ∧ e.1.1 < s.nextWd ∧ e.2 < s.nextObj + 1
          rcases List.mem_append.mp he with h0 | h0
          · obtain ⟨a, b, c⟩ := inv.instKey e h0
            exact ⟨a, b, by omega⟩
          · rcases List.mem_singleton.mp h0 with rfl
            exact ⟨rfl, hwd, by show s.nextObj < s.nextObj + 1; omega⟩
        · intro e1 ha e2 hb hv
          rcases List.mem_append.mp ha with ha | ha <;>
            rcases List.mem_append.mp hb with hb | hb
          · exact inv.instInj e1 ha e2 hb hv
          · rcases List.mem_singleton.mp hb with rfl
            have := (inv.instKey e1 ha).2.2
            exact absurd hv (by simp; omega)
          · rcases List.mem_singleton.mp ha with rfl
            have := (inv.instKey e2 hb).2.2
            exact absurd hv (by simp; omega)
          · rcases List.mem_singleton.mp ha with rfl
            rcases List.mem_singleton.mp hb with rfl
            rfl
        · have hk : ((wd, s.fd) : Nat × Nat) ∉ s.instances.map Prod.fst := by
            intro hmem
            rcases mem_map_fst.mp hmem with ⟨b, hb⟩
            exact absurd hb (alook_none_not_mem h2 b)
          show ((s.instances ++ [((wd, s.fd), s.nextObj)]).map Prod.fst).Nodup
          rw [List.map_append]
          simp [List.nodup_append, inv.instKeysNodup, hk]
        · exact hH3
        · intro e he
          rcases List.mem_append.mp he with h0 | h0
          · have hne : e.2 ≠ s.nextObj := by
              have := (inv.instKey e h0).2.2
              omega
            show (alook (hupd (s.heap ++ [(s.nextObj, cinit wd)]) s.nextObj p m)
              e.2).isSome
            rw [hH2 e.2 hne]
            exact inv.instHeap e h0
          · rcases List.mem_singleton.mp h0 with rfl
            show (alook (hupd (s.heap ++ [(s.nextObj, cinit wd)]) s.nextObj p m)
              s.nextObj).isSome
            rw [hH1]
            rfl
      · show (alook s.kwatches p).bind
            (fun wd0 => alook (s.instances ++ [((wd, s.fd), s.nextObj)]) (wd0, s.fd)) =
          some s.nextObj
        rw [h1]
        simpa using hin
      · intro q o hq
        rw [hFor] at hq
        rcases hkq : alook s.kwatches q with _ | wq <;> rw [hkq] at hq
        · simp at hq
        · simp only [Option.some_bind] at hq
          show (alook s.kwatches q).bind
              (fun wd0 => alook (s.instances ++ [((wd, s.fd), s.nextObj)]) (wd0, s.fd)) =
            some o
          rw [hkq]
          simpa using alook_append_some hq
    · -- known path with cached object: reuse it and update its fields
      rw [watchOp_case_hit s p m h1 h2]
      obtain ⟨⟨w0, hB1⟩, hB2, hB3⟩ :=
        hitHeap_spec s.heap oid p m (inv.instHeap _ (alook_mem h2))
      refine ⟨?_, rfl, ?_, fun q o hq => hq, ⟨w0, hB1⟩, hB2⟩
      · constructor
        · exact inv.kwBound
        · exact inv.kwInj
        · exact inv.instKey
        · exact inv.instInj
        · exact inv.instKeysNodup
        · exact hB3 s.nextObj inv.heapBound
        · intro e he
          by_cases heq : e.2 = oid
          · show (alook (hupd s.heap oid p m) e.2).isSome
            rw [heq, hB1]
            rfl
          · show (alook (hupd s.heap oid p m) e.2).isSome
            rw [hB2 e.2 heq]
            exact inv.instHeap e he
      · show (alook s.kwatches p).bind (fun wd => alook s.instances (wd, s.fd)) = some oid
        rw [h1]
        simpa using h2

/-- In an invariant state the cache resolves at most one path to any
given handle: handles are distinct across distinct paths. -/
theorem hFor_inj (s : CacheState) (inv : CacheInv s) {p q : String} {o : Nat}
    (hp : hFor s p = some o) (hq : hFor s q = some o) : p = q := by
  rw [hFor] at hp hq
  rcases hkp : alook s.kwatches p with _ | wp <;> rw [hkp] at hp
  · simp at hp
  rcases hkq : alook s.kwatches q with _ | wq <;> rw [hkq] at hq
  · simp at hq
  simp only [Option.some_bind] at hp hq
  have h1 := inv.instInj _ (alook_mem hp) _ (alook_mem hq) rfl
  have hww : wp = wq := by
    have := congrArg Prod.fst h1
    simpa using this
  subst hww
  have h2 := inv.kwInj _ (alook_mem hkp) _ (alook_mem hkq) rfl
  simpa using h2

/-! ### Facts about `lastMaskOf` -/

theorem filter_path_nil {rest : List (String × Nat)} {q : String}
    (h : q ∉ rest.map Prod.fst) : rest.filter (fun op => op.1 == q) = [] := by
  rw [List.filter_eq_nil]
  intro e he
  simp only [beq_iff_eq]
  intro heq
  refine h (mem_map_fst.mpr ⟨e.2, ?_⟩)
  rw [← heq]
  exact he

theorem getLast?_cons_ne_nil {α : Type} (a : α) {l : List α} (h : l ≠ []) :
    (a :: l).getLast? = l.getLast? := by
  rcases l with _ | ⟨x, xs⟩
  · exact absurd rfl h
  · rw [List.getLast?_cons_cons]

theorem lastMaskOf_cons_ne (op : String × Nat) (rest : List (String × Nat)) {q : String}
    (h : q ≠ op.1) : lastMaskOf (op :: rest) q = lastMaskOf rest q := by
  rw [lastMaskOf, lastMaskOf, List.filter_cons]
  simp [beq_iff_eq, Ne.symm h]

theorem lastMaskOf_cons_self_not_mem (op : String × Nat) (rest : List (String × Nat))
    (h : op.1 ∉ rest.map Prod.fst) : lastMaskOf (op :: rest) op.1 = op.2 := by
  have hfil : (op :: rest).filter (fun o => o.1 == op.1) = [op] := by
    rw [List.filter_cons]
    simp [filter_path_nil h]
  rw [lastMaskOf, hfil]
  rfl

theorem lastMaskOf_cons_mem (op : String × Nat) (rest : List (String × Nat)) {q : String}
    (h : q ∈ rest.map Prod.fst) : lastMaskOf (op :: rest) q = lastMaskOf rest q := by
  by_cases heq : q = op.1
  · have hne : rest.filter (fun o => o.1 == q) ≠ [] := by
      rcases mem_map_fst.mp h with ⟨b, hb⟩
      intro hnil
      have hmem : (q, b) ∈ rest.filter (fun o => o.1 == q) :=
        List.mem_filter.mpr ⟨hb, by simp⟩
      rw [hnil] at hmem
      simp at hmem
    rw [lastMaskOf, lastMaskOf, List.filter_cons]
    have hcond : (op.1 == q) = true := by simp [heq]
    rw [if_pos hcond, getLast?_cons_ne_nil op hne]
  · exact lastMaskOf_cons_ne op rest heq

/-! ### The whole registration run -/

theorem runRegs_spec (ops : List (String × Nat)) (s : CacheState) (inv : CacheInv s) :
    CacheInv (runRegs s ops).1
  ∧ (runRegs s ops).1.fd = s.fd
  ∧ (runRegs s ops).2.length = ops.length
  ∧ (∀ q o, hFor s q = some o → hFor (runRegs s ops).1 q = some o)
  ∧ (∀ i, i < ops.length →
       hFor (runRegs s ops).1 (ops.getD i ("", 0)).1 = some ((runRegs s ops).2.getD i 0))
  ∧ (∀ q, q ∈ ops.map Prod.fst → ∀ o, hFor (runRegs s ops).1 q = some o →
       ∃ w, alook (runRegs s ops).1.heap o =
         some { wd := w, pathname := q, mask := lastMaskOf ops q })
  ∧ (∀ q o, q ∉ ops.map Prod.fst → hFor s q = some o →
       alook (runRegs s ops).1.heap o = alook s.heap o) := by
  induction ops generalizing s with
  | nil =>
      refine ⟨inv, rfl, rfl, fun q o hq => hq, ?_, ?_, fun q o _ _ => rfl⟩
      · intro i hi
        simp at hi
      · intro q hq
        simp at hq
  | cons op rest ih =>
      obtain ⟨inv1, hfd1, hres1, hmono1, ⟨w1, hheap1⟩, hframe1⟩ := watchOp_spec s op.1 op.2 inv
      obtain ⟨invF, hfdF, hlenF, hmonoF, hidxF, hpathF, hframeF⟩ :=
        ih (watchOp s op.1 op.2).1 inv1
      have hrun : runRegs s (op :: rest) =
          ((runRegs (watchOp s op.1 op.2).1 rest).1,
           (watchOp s op.1 op.2).2 :: (runRegs (watchOp s op.1 op.2).1 rest).2) := rfl
      rw [hrun]
      dsimp only
      refine ⟨invF, hfdF.trans hfd1, by simp [hlenF], fun q o hq => hmonoF q o (hmono1 q o hq),
        ?_, ?_, ?_⟩
      · intro i hi
        rcases i with _ | i
        · show hFor (runRegs (watchOp s op.1 op.2).1 rest).1 op.1 =
            some (watchOp s op.1 op.2).2
          exact hmonoF op.1 (watchOp s op.1 op.2).2 hres1
        · have hi2 : i < rest.length := by simpa using hi
          show hFor (runRegs (watchOp s op.1 op.2).1 rest).1 (rest.getD i ("", 0)).1 =
            some ((runRegs (watchOp s op.1 op.2).1 rest).2.getD i 0)
          exact hidxF i hi2
      · intro q hq o ho
        by_cases hmem : q ∈ rest.map Prod.fst
        · obtain ⟨w, hw⟩ := hpathF q hmem o ho
          exact ⟨w, by rw [lastMaskOf_cons_mem op rest hmem]; exact hw⟩
        · have hqop : q = op.1 := by
            rcases (by simpa using hq : q = op.1 ∨ q ∈ rest.map Prod.fst) with h | h
            · exact h
            · exact absurd h hmem
          subst hqop
          have h2 := hmonoF op.1 (watchOp s op.1 op.2).2 hres1
          have ho2 : o = (watchOp s op.1 op.2).2 := by
            rw [ho] at h2
            exact Option.some.inj h2
          subst ho2
          refine ⟨w1, ?_⟩
          rw [lastMaskOf_cons_self_not_mem op rest hmem]
          rw [hframeF op.1 (watchOp s op.1 op.2).2 hmem hres1]
          exact hheap1
      · intro q o hq hfor
        have hq1 : q ≠ op.1 := fun h => hq (by simp [h])
        have hq2 : q ∉ rest.map Prod.fst := fun h => hq (by simp [h])
        have hfor1 : hFor (watchOp s op.1 op.2).1 q = some o := hmono1 q o hfor
        have hneq : o ≠ (watchOp s op.1 op.2).2 := by
          intro heq
          rw [heq] at hfor1
          exact hq1 (hFor_inj (watchOp s op.1 op.2).1 inv1 hfor1 hres1)
        rw [hframeF q o hq2 hfor1, hframe1 o hneq]

/-- Claim C6 theorem: over any sequence of registrations from a fresh
watcher, the handle list matches the registration list in length, two
registrations receive the same handle exactly when they registered the
same path (so distinct paths give distinct handles and re-registration
returns the cached handle), the object behind each handle carries the
path and the mask of the last registration of that path, and the identity
cache holds at most one handle per (watch id, channel) pair. -/
theorem watch_identity_cache (fd : Nat) (ops : List (String × Nat)) (i j : Nat)
    (hi : i < ops.length) (hj : j < ops.length) :
    (runRegs (initCache fd) ops).2.length = ops.length
  ∧ ((ops.getD i ("", 0)).1 = (ops.getD j ("", 0)).1 ↔
       (runRegs (initCache fd) ops).2.getD i 0 = (runRegs (initCache fd) ops).2.getD j 0)
  ∧ (∃ w, alook (runRegs (initCache fd) ops).1.heap
        ((runRegs (initCache fd) ops).2.getD i 0) =
      some { wd := w, pathname := (ops.getD i ("", 0)).1,
             mask := lastMaskOf ops (ops.getD i ("", 0)).1 })
  ∧ ((runRegs (initCache fd) ops).1.instances.map Prod.fst).Nodup := by
  obtain ⟨invF, _, hlen, _, hidx, hpath, _⟩ :=
    runRegs_spec ops (initCache fd) (cacheInv_init fd)
  have hgd : ops.getD i ("", 0) = ops.get ⟨i, hi⟩ := by
    rw [List.getD_eq_get?, List.get?_eq_get hi]
    rfl
  have hmi : (ops.getD i ("", 0)).1 ∈ ops.map Prod.fst := by
    rw [hgd]
    exact List.mem_map_of_mem Prod.fst (ops.get_mem _ _)
  refine ⟨hlen, ⟨?_, ?_⟩, hpath _ hmi _ (hidx i hi), invF.instKeysNodup⟩
  · intro hpq
    have h1 := hidx i hi
    have h2 := hidx j hj
    rw [hpq] at h1
    rw [h1] at h2
    exact Option.some.inj h2
  · intro hss
    have h1 := hidx i hi
    have h2 := hidx j hj
    rw [hss] at h1
    exact hFor_inj _ invF h1 h2

/-- Witness for C6 on three registrations where the first and third share
a path. -/
theorem watch_identity_cache_witness :
    (runRegs (initCache 9) [("a", 1), ("b", 2), ("a", 3)]).2.length =
      ([("a", 1), ("b", 2), ("a", 3)] : List (String × Nat)).length :=
  (watch_identity_cache 9 [("a", 1), ("b", 2), ("a", 3)] 0 2
    (by decide) (by decide)).1

end Inotipy
